import Mathlib

/-!
Verification of the fluent-builder enforcement wrapper
(`src/builder-factory.ts`, function `createBuilder` and the factory
entry points `createBuilderFactoryFor` / `createBuilderFactory`).

The TypeScript code wraps an "inner builder" object in a `Proxy` whose
`get` trap classifies each accessed member:

  * non-string keys (symbols) yield `undefined`;
  * the designated finalize name yields a zero-argument thunk
    `() => target[prop]()`;
  * function members whose name starts with `"with"` are one-time
    methods: a repeated access throws `Method '<p>' already called`,
    otherwise the returned closure applies the underlying function,
    records the name in the shared `called` set, and returns a fresh
    proxy view;
  * other function members are repeatable: the closure applies the
    underlying function and returns a fresh proxy view without touching
    `called`;
  * any non-null object member is a group: if its name is in `called`
    the access throws `Group '<p>' already used`, otherwise a transient
    proxy object is returned whose every key wraps the underlying entry;
    invoking one entry applies it, records the *group* name and returns
    a fresh proxy view;
  * every other member (a primitive, `null` or `undefined` value) is
    returned unmodified.

The embedding below is a direct translation of that dispatch.  The
mutable inner-builder instance is modelled by a state type `σ`; a
member implementation is a function from the current state and the
argument list to a result that either returns normally (with a new
state and a return value) or throws (with a new state, since a body may
mutate the instance before throwing).  The wrapper ignores the return
value of chain methods — it always substitutes its own proxy view — so
for chain calls only the state effect matters.
-/

namespace FluentBuilder

/-- JavaScript-style runtime values, used for constructor and method
arguments, method return values and thrown values.  Arrays of strings
are enough for the result values appearing in the repository's tests
and examples. -/
inductive JsVal where
  | undefined : JsVal
  | null : JsVal
  | bool (b : Bool) : JsVal
  | num (n : Int) : JsVal
  | str (s : String) : JsVal
  | strList (xs : List String) : JsVal
deriving DecidableEq

/-- Values that are neither functions nor non-null objects: exactly the
member values the proxy handler's final `return value` line passes
through unmodified (`typeof value` is not `"function"`, and either not
`"object"` or the value is `null`). -/
inductive PrimVal where
  | undefined : PrimVal
  | null : PrimVal
  | bool (b : Bool) : PrimVal
  | num (n : Int) : PrimVal
  | str (s : String) : PrimVal
deriving DecidableEq

/-- An error raised by the inner builder's own code (or by JavaScript
itself when a non-callable is invoked), as opposed to the wrapper's two
call-discipline errors. -/
inductive JsErr where
  | typeError (msg : String) : JsErr
  | userThrown (v : JsVal) : JsErr
deriving DecidableEq

/-- Outcome of running an inner-builder method body on state `s` with
some arguments: it either returns normally or throws, and in both cases
the instance may have been mutated (the body runs against the live
instance). -/
inductive MRes (σ : Type) where
  | ok (s : σ) (ret : JsVal) : MRes σ
  | thrown (s : σ) (e : JsErr) : MRes σ
deriving DecidableEq

/-- An entry of a group object: either a method implementation or a
non-callable value.  The group proxy wraps every enumerable key,
whether or not the underlying entry is callable; invoking a wrapped
non-callable throws a `TypeError` inside the closure. -/
inductive ObjEntry (σ : Type) where
  | fn (impl : σ → List JsVal → MRes σ) : ObjEntry σ
  | data (v : PrimVal) : ObjEntry σ

/-- Classification of a member of the inner builder, as seen by the
`typeof` tests in the proxy handler: a function, a non-null object
(its enumerable keys with their entries), or anything else (a value
passed through unmodified; an absent member is `data .undefined`). -/
inductive MemberVal (σ : Type) where
  | fn (impl : σ → List JsVal → MRes σ) : MemberVal σ
  | obj (entries : List (String × ObjEntry σ)) : MemberVal σ
  | data (v : PrimVal) : MemberVal σ

/-- Model of the builder class passed to `createBuilder`: a constructor
producing the initial instance state, the string-keyed members of an
instance, and the symbol-keyed members (represented by numeric symbol
identifiers; the proxy never consults these, which is exactly what
claim C10 is about). -/
structure BuilderClass (σ : Type) where
  ctor : List JsVal → σ
  members : String → MemberVal σ
  symMembers : Nat → JsVal

/-- The shared mutable state of one wrapper lineage: the inner-builder
instance state and the `called` set of consumed names (`Set<string>`,
modelled as a duplicate-free list via `setAdd`). -/
structure ChainState (σ : Type) where
  inner : σ
  called : List String
deriving DecidableEq

/-- Model of `Set.add`: insert a name unless already present. -/
def setAdd (p : String) (l : List String) : List String :=
  if l.contains p then l else p :: l

/-- The wrapper's two call-discipline failures, plus propagation of an
error thrown by the inner builder's own code.  In the source both
discipline failures are plain `Error` values distinguished only by
their message; `errMessage` reconstructs those messages. -/
inductive WErr where
  | dupMethod (name : String) : WErr
  | dupGroup (name : String) : WErr
  | inner (e : JsErr) : WErr
deriving DecidableEq

/-- The ASCII single-quote character used in the thrown messages. -/
def quoteCh : String := String.singleton (Char.ofNat 39)

/-- Message of each wrapper error, as built at the `throw` sites
(line 36: `Method '<p>' already called`; line 48:
`Group '<p>' already used`).  An error propagated from the inner
builder keeps its own payload, so no message is reconstructed for it. -/
def errMessage : WErr → String
  | WErr.dupMethod m => "Method " ++ quoteCh ++ m ++ quoteCh ++ " already called"
  | WErr.dupGroup g => "Group " ++ quoteCh ++ g ++ quoteCh ++ " already used"
  | WErr.inner _ => ""

/-- The test `prop.startsWith("with")` of line 33, computed on the
underlying character lists (so that the kernel can evaluate it on
concrete names). -/
def isOneTimeName (p : String) : Bool :=
  List.isPrefixOf "with".data p.data

/-- A property key, as received by the `get` trap: a string or a
symbol (identified by a number). -/
inductive PropKey where
  | str (s : String) : PropKey
  | sym (id : Nat) : PropKey
deriving DecidableEq

/-- What a property access on the wrapped builder evaluates to, before
any invocation: `undefined` (symbol keys), the finalize thunk, a bound
method closure (capturing the underlying implementation, the property
name and its one-time classification, exactly the values captured by
the closure on lines 39-43), a transient group proxy, or a passed-
through plain value. -/
inductive GetRes (σ : Type) where
  | undef : GetRes σ
  | finalizeThunk : GetRes σ
  | methodClosure (impl : σ → List JsVal → MRes σ) (prop : String) (isOneTime : Bool) : GetRes σ
  | groupProxy (prop : String) (entries : List (String × ObjEntry σ)) : GetRes σ
  | dataVal (v : PrimVal) : GetRes σ

/-- Direct translation of the proxy handler's `get` trap
(lines 25-63).  It reads the shared `called` set but never mutates any
state, and it may throw the two discipline errors. -/
def getTrap {σ : Type} (B : BuilderClass σ) (bm : String) (called : List String) :
    PropKey → Except WErr (GetRes σ)
  | PropKey.sym _ => Except.ok GetRes.undef
  | PropKey.str p =>
    if p = bm then Except.ok GetRes.finalizeThunk
    else
      match B.members p with
      | MemberVal.fn impl =>
        if isOneTimeName p && called.contains p then
          Except.error (WErr.dupMethod p)
        else Except.ok (GetRes.methodClosure impl p (isOneTimeName p))
      | MemberVal.obj entries =>
        if called.contains p then Except.error (WErr.dupGroup p)
        else Except.ok (GetRes.groupProxy p entries)
      | MemberVal.data v => Except.ok (GetRes.dataVal v)

/-- Result of invoking something obtained from the wrapped builder:
a fresh chain view over the updated shared state, a terminal value
(from the finalize thunk), or an error together with the state as it
stands when the error escapes (the shared state persists across a
throw). -/
inductive CallRes (σ : Type) where
  | view (st : ChainState σ) : CallRes σ
  | value (st : ChainState σ) (v : JsVal) : CallRes σ
  | err (st : ChainState σ) (e : WErr) : CallRes σ
deriving DecidableEq

/-- Invocation of a method closure (lines 39-43): apply the captured
implementation to the live instance, then record the name in `called`
when one-time — so a throwing body never records the name — and return
a fresh view. -/
def invokeClosure {σ : Type} (st : ChainState σ)
    (impl : σ → List JsVal → MRes σ) (prop : String) (isOneTime : Bool)
    (args : List JsVal) : CallRes σ :=
  match impl st.inner args with
  | MRes.ok s _ =>
      CallRes.view ⟨s, if isOneTime then setAdd prop st.called else st.called⟩
  | MRes.thrown s e => CallRes.err ⟨s, st.called⟩ (WErr.inner e)

/-- Invocation of the finalize thunk `() => target[prop]()` (line 28):
call the member at the finalize name with zero arguments and return
its result as-is; `called` is never read or written.  Calling a
non-function member throws a `TypeError`, as JavaScript would. -/
def invokeFinalize {σ : Type} (B : BuilderClass σ) (bm : String)
    (st : ChainState σ) : CallRes σ :=
  match B.members bm with
  | MemberVal.fn impl =>
    match impl st.inner [] with
    | MRes.ok s v => CallRes.value ⟨s, st.called⟩ v
    | MRes.thrown s e => CallRes.err ⟨s, st.called⟩ (WErr.inner e)
  | _ => CallRes.err st (WErr.inner (JsErr.typeError "not a function"))

/-- Invocation of one key of the transient group proxy (lines 51-58):
look up the underlying entry, apply it, record the group name — only
after a normal return — and hand back a fresh view.  A key whose entry
is not callable, or a key absent from the group, throws a `TypeError`
before anything is recorded. -/
def invokeGroupKey {σ : Type} (st : ChainState σ) (grp : String)
    (entries : List (String × ObjEntry σ)) (key : String)
    (args : List JsVal) : CallRes σ :=
  match entries.lookup key with
  | some (ObjEntry.fn impl) =>
    match impl st.inner args with
    | MRes.ok s _ => CallRes.view ⟨s, setAdd grp st.called⟩
    | MRes.thrown s e => CallRes.err ⟨s, st.called⟩ (WErr.inner e)
  | some (ObjEntry.data _) =>
      CallRes.err st (WErr.inner (JsErr.typeError "not a function"))
  | none => CallRes.err st (WErr.inner (JsErr.typeError "not a function"))

/-- The compound expression `wrapped.prop(...args)`: evaluate the `get`
trap on the string key `prop`, then invoke the result.  Invoking a
group proxy, a passed-through value or `undefined` as a function throws
a `TypeError`. -/
def callProp {σ : Type} (B : BuilderClass σ) (bm : String) (st : ChainState σ)
    (prop : String) (args : List JsVal) : CallRes σ :=
  match getTrap B bm st.called (PropKey.str prop) with
  | Except.error e => CallRes.err st e
  | Except.ok GetRes.finalizeThunk => invokeFinalize B bm st
  | Except.ok (GetRes.methodClosure impl p one) => invokeClosure st impl p one args
  | Except.ok (GetRes.groupProxy _ _) =>
      CallRes.err st (WErr.inner (JsErr.typeError "not a function"))
  | Except.ok (GetRes.dataVal _) =>
      CallRes.err st (WErr.inner (JsErr.typeError "not a function"))
  | Except.ok GetRes.undef =>
      CallRes.err st (WErr.inner (JsErr.typeError "not a function"))

/-- The compound expression `wrapped.grp.key(...args)`: evaluate the
`get` trap on `grp`, then invoke member `key` of the result.  When the
access does not yield a group proxy, reading `.key` of the value and
calling it throws a `TypeError`. -/
def callGroupProp {σ : Type} (B : BuilderClass σ) (bm : String)
    (st : ChainState σ) (grp key : String) (args : List JsVal) : CallRes σ :=
  match getTrap B bm st.called (PropKey.str grp) with
  | Except.error e => CallRes.err st e
  | Except.ok (GetRes.groupProxy p entries) => invokeGroupKey st p entries key args
  | _ => CallRes.err st (WErr.inner (JsErr.typeError "not a function"))

/-- A sequence of chain calls `wrapped.p1(a1).p2(a2). ...`: each
successful call returns a fresh view over the updated shared state and
the chain continues; an error or a terminal value stops it. -/
def runChain {σ : Type} (B : BuilderClass σ) (bm : String) :
    ChainState σ → List (String × List JsVal) → CallRes σ
  | st, [] => CallRes.view st
  | st, c :: rest =>
    match callProp B bm st c.1 c.2 with
    | CallRes.view st' => runChain B bm st' rest
    | r => r

/-- Direct sequential execution of one implementation against the inner
instance, without any wrapper: the reference for "all N invocations'
side effects, in call order". -/
def runInner {σ : Type} (impl : σ → List JsVal → MRes σ) :
    σ → List (List JsVal) → σ ⊕ (σ × JsErr)
  | s, [] => Sum.inl s
  | s, args :: rest =>
    match impl s args with
    | MRes.ok s' _ => runInner impl s' rest
    | MRes.thrown s' e => Sum.inr (s', e)

/-- A wrapped builder lineage, as produced by `createBuilder`: the
class and finalize name the proxy handler closes over, the shared
`ChainState` (one inner instance, one `called` set), and a fresh-
identity supply for proxy views.  Each `new Proxy(target, handler)` is
a distinct JavaScript object; view identities are modelled by natural
numbers below `nextId`, the view returned by `createBuilder` itself
being view `0`. -/
structure Wrapped (σ : Type) where
  cls : BuilderClass σ
  bm : String
  st : ChainState σ
  nextId : Nat

/-- Translation of `createBuilder` (lines 12-67): instantiate exactly
one inner builder from the constructor arguments, create exactly one
empty `called` set, and return the initial proxy view (view `0`,
`nextId = 1`). -/
def createBuilder {σ : Type} (c : BuilderClass σ) (bm : String)
    (args : List JsVal) : Wrapped σ :=
  ⟨c, bm, ⟨c.ctor args, []⟩, 1⟩

/-- Result of a call performed through a particular proxy view: a fresh
view identity over the updated lineage, a terminal value, or an error
(the lineage persisting in every case). -/
inductive ViewRes (σ : Type) where
  | view (w : Wrapped σ) (id : Nat) : ViewRes σ
  | value (w : Wrapped σ) (v : JsVal) : ViewRes σ
  | err (w : Wrapped σ) (e : WErr) : ViewRes σ

/-- The expression `view.prop(...args)` performed through proxy view
`viewId` of lineage `w`.  Every view delegates to the same handler
closing over the same target and `called` set, so the dispatch ignores
which view is used; a successful chain call returns the fresh view
`w.nextId`. -/
def viewCall {σ : Type} (w : Wrapped σ) (viewId : Nat) (prop : String)
    (args : List JsVal) : ViewRes σ :=
  match callProp w.cls w.bm w.st prop args with
  | CallRes.view st' => ViewRes.view ⟨w.cls, w.bm, st', w.nextId + 1⟩ w.nextId
  | CallRes.value st' v => ViewRes.value ⟨w.cls, w.bm, st', w.nextId⟩ v
  | CallRes.err st' e => ViewRes.err ⟨w.cls, w.bm, st', w.nextId⟩ e

/-- The expression `view.grp.key(...args)` performed through proxy view
`viewId` of lineage `w`; like `viewCall`, the dispatch ignores which
view is used. -/
def viewGroupCall {σ : Type} (w : Wrapped σ) (viewId : Nat)
    (grp key : String) (args : List JsVal) : ViewRes σ :=
  match callGroupProp w.cls w.bm w.st grp key args with
  | CallRes.view st' => ViewRes.view ⟨w.cls, w.bm, st', w.nextId + 1⟩ w.nextId
  | CallRes.value st' v => ViewRes.value ⟨w.cls, w.bm, st', w.nextId⟩ v
  | CallRes.err st' e => ViewRes.err ⟨w.cls, w.bm, st', w.nextId⟩ e

/-- Translation of `createBuilderFactoryFor` (lines 77-88): close over
the class and the finalize name and delegate to `createBuilder`. -/
def createBuilderFactoryFor {σ : Type} (c : BuilderClass σ) (bm : String) :
    List JsVal → Wrapped σ :=
  fun args => createBuilder c bm args

/-- First runtime argument of `createBuilderFactory`: the dispatch on
line 126 tests `typeof args[0] === "function"`, i.e. whether the first
argument is the class itself or the finalize-method name. -/
inductive FactoryHead (σ : Type) where
  | classArg (c : BuilderClass σ) : FactoryHead σ
  | nameArg (m : String) : FactoryHead σ

/-- Translation of the runtime implementation of `createBuilderFactory`
(lines 122-135): a leading class argument selects the default finalize
name `build` (any second argument is ignored); a leading name argument
uses that name with the class supplied second.  A missing class in the
second position makes the returned factory fail (`new undefined(...)`),
modelled by `none`. -/
def createBuilderFactory {σ : Type} (head : FactoryHead σ)
    (second : Option (BuilderClass σ)) : List JsVal → Option (Wrapped σ) :=
  match head with
  | FactoryHead.classArg c => fun ctorArgs => some (createBuilder c "build" ctorArgs)
  | FactoryHead.nameArg m =>
    match second with
    | some c => fun ctorArgs => some (createBuilder c m ctorArgs)
    | none => fun _ => none

/-!  Concrete inner builders, taken from the repository's test suite
(`tests/createBuilder.test.ts`) and used as witnesses below.  The
wrapper discards the return value of chain methods (it substitutes its
own proxy view), so the `this` returned by the TypeScript chain methods
is modelled as `undefined`. -/

/-- First argument of a call, as a string (missing or non-string
arguments read as the empty string). -/
def firstStr : List JsVal → String
  | JsVal.str v :: _ => v
  | _ => ""

/-- State update of `withValue` in the test `TestBuilder`: store the
argument in the private `_value` field. -/
def withValueImpl : String → List JsVal → MRes String :=
  fun _ args => MRes.ok (firstStr args) JsVal.undefined

/-- Body of `build()` in the test `TestBuilder`:
return `Hello, <_value>!`. -/
def helloBuildImpl : String → List JsVal → MRes String :=
  fun s _ => MRes.ok s (JsVal.str ("Hello, " ++ s ++ "!"))

/-- The test `TestBuilder`: one one-time method `withValue` and the
finalize method `build`; its instance state is the `_value` field,
initially empty. -/
def testBuilder : BuilderClass String where
  ctor := fun _ => ""
  members := fun p =>
    match p with
    | "withValue" => MemberVal.fn withValueImpl
    | "build" => MemberVal.fn helloBuildImpl
    | _ => MemberVal.data PrimVal.undefined
  symMembers := fun _ => JsVal.undefined

/-- Body of `addTag` in the test builder with a repeatable method:
append the argument to the `log` array. -/
def addTagImpl : List String → List JsVal → MRes (List String) :=
  fun s args => MRes.ok (s ++ [firstStr args]) JsVal.undefined

/-- Finalize body returning the accumulated string array. -/
def listBuildImpl : List String → List JsVal → MRes (List String) :=
  fun s _ => MRes.ok s (JsVal.strList s)

/-- The test builder with the repeatable method `addTag` and finalize
`build` returning the log array; its state is the `log` field. -/
def tagBuilder : BuilderClass (List String) where
  ctor := fun _ => []
  members := fun p =>
    match p with
    | "addTag" => MemberVal.fn addTagImpl
    | "build" => MemberVal.fn listBuildImpl
    | _ => MemberVal.data PrimVal.undefined
  symMembers := fun _ => JsVal.undefined

/-- Body of `options.enable` in the grouped-methods test builder. -/
def enableImpl : List String → List JsVal → MRes (List String) :=
  fun s _ => MRes.ok (s ++ ["enabled"]) JsVal.undefined

/-- Body of `options.disable` in the grouped-methods test builder. -/
def disableImpl : List String → List JsVal → MRes (List String) :=
  fun s _ => MRes.ok (s ++ ["disabled"]) JsVal.undefined

/-- Entries of the `options` group namespace. -/
def optionsEntries : List (String × ObjEntry (List String)) :=
  [("enable", ObjEntry.fn enableImpl), ("disable", ObjEntry.fn disableImpl)]

/-- The grouped-methods test builder: group `options` with members
`enable` and `disable`, finalize `build` returning the `result` array. -/
def optionsBuilder : BuilderClass (List String) where
  ctor := fun _ => []
  members := fun p =>
    match p with
    | "options" => MemberVal.obj optionsEntries
    | "build" => MemberVal.fn listBuildImpl
    | _ => MemberVal.data PrimVal.undefined
  symMembers := fun _ => JsVal.undefined

/-- Body of `run()` in the custom-finalize-name test builder. -/
def runImpl : Unit → List JsVal → MRes Unit :=
  fun s _ => MRes.ok s (JsVal.str "done")

/-- The custom-finalize-name test builder: its only member is the
finalize method `run`. -/
def runBuilder : BuilderClass Unit where
  ctor := fun _ => ()
  members := fun p =>
    match p with
    | "run" => MemberVal.fn runImpl
    | _ => MemberVal.data PrimVal.undefined
  symMembers := fun _ => JsVal.undefined

/-- Entries of a non-null object member `config` one of whose members
is not callable (`x` holds the number `42`). -/
def configEntries : List (String × ObjEntry Unit) :=
  [("x", ObjEntry.data (PrimVal.num 42))]

/-- A builder with the mixed non-null object member `config = \x7b x: 42 \x7d`
and a plain data member `version = 1`, used to probe the plain-data
passthrough claim. -/
def dataBuilder : BuilderClass Unit where
  ctor := fun _ => ()
  members := fun p =>
    match p with
    | "config" => MemberVal.obj configEntries
    | "version" => MemberVal.data (PrimVal.num 1)
    | "build" => MemberVal.fn (fun s _ => MRes.ok s JsVal.undefined)
    | _ => MemberVal.data PrimVal.undefined
  symMembers := fun _ => JsVal.undefined

/-- A one-time method body that mutates the instance counter and then
throws when called with no arguments, and returns normally otherwise. -/
def withBadImpl : Int → List JsVal → MRes Int :=
  fun s args =>
    match args with
    | [] => MRes.thrown (s + 1) (JsErr.userThrown (JsVal.str "boom"))
    | _ => MRes.ok (s + 1) JsVal.undefined

/-- Entries of a group whose method `bad` throws on empty arguments. -/
def gBadEntries : List (String × ObjEntry Int) :=
  [("bad", ObjEntry.fn withBadImpl)]

/-- A builder whose one-time method `withBad` and group method
`g.bad` throw on empty arguments, used to probe that a throwing body
records nothing in the `called` set. -/
def throwBuilder : BuilderClass Int where
  ctor := fun _ => 0
  members := fun p =>
    match p with
    | "withBad" => MemberVal.fn withBadImpl
    | "g" => MemberVal.obj gBadEntries
    | "build" => MemberVal.fn (fun s _ => MRes.ok s (JsVal.num s))
    | _ => MemberVal.data PrimVal.undefined
  symMembers := fun _ => JsVal.undefined

/-!  Helper lemmas about the dispatch. -/

theorem contains_setAdd_self (m : String) (l : List String) :
    (setAdd m l).contains m = true := by
  unfold setAdd
  split
  · assumption
  · simp

theorem contains_setAdd_of_ne {k g : String} (l : List String) (h : k ≠ g) :
    (setAdd g l).contains k = l.contains k := by
  unfold setAdd
  split
  · rfl
  · simp [h]

theorem getTrap_bm {σ : Type} (B : BuilderClass σ) (bm : String)
    (called : List String) :
    getTrap B bm called (PropKey.str bm) = Except.ok GetRes.finalizeThunk := by
  simp [getTrap]

theorem callProp_bm {σ : Type} (B : BuilderClass σ) (bm : String)
    (st : ChainState σ) (args : List JsVal) :
    callProp B bm st bm args = invokeFinalize B bm st := by
  simp [callProp, getTrap]

theorem getTrap_fn_fresh {σ : Type} {B : BuilderClass σ} {bm : String}
    {called : List String} {m : String} {impl : σ → List JsVal → MRes σ}
    (hm : m ≠ bm) (hmem : B.members m = MemberVal.fn impl)
    (hdup : (isOneTimeName m && called.contains m) = false) :
    getTrap B bm called (PropKey.str m)
      = Except.ok (GetRes.methodClosure impl m (isOneTimeName m)) := by
  simp [getTrap, hm, hmem, hdup]
  intro h
  rw [h] at hdup
  simpa using hdup

theorem getTrap_fn_dup {σ : Type} {B : BuilderClass σ} {bm : String}
    {called : List String} {m : String} {impl : σ → List JsVal → MRes σ}
    (hm : m ≠ bm) (hmem : B.members m = MemberVal.fn impl)
    (hone : isOneTimeName m = true) (hc : called.contains m = true) :
    getTrap B bm called (PropKey.str m) = Except.error (WErr.dupMethod m) := by
  simp [getTrap, hm, hmem, hone, hc]
  simpa using hc

theorem callProp_fn_fresh {σ : Type} {B : BuilderClass σ} {bm : String}
    {st : ChainState σ} {m : String} {impl : σ → List JsVal → MRes σ}
    (args : List JsVal)
    (hm : m ≠ bm) (hmem : B.members m = MemberVal.fn impl)
    (hdup : (isOneTimeName m && st.called.contains m) = false) :
    callProp B bm st m args = invokeClosure st impl m (isOneTimeName m) args := by
  unfold callProp
  rw [getTrap_fn_fresh hm hmem hdup]

theorem callProp_fn_dup {σ : Type} {B : BuilderClass σ} {bm : String}
    {st : ChainState σ} {m : String} {impl : σ → List JsVal → MRes σ}
    (args : List JsVal)
    (hm : m ≠ bm) (hmem : B.members m = MemberVal.fn impl)
    (hone : isOneTimeName m = true) (hc : st.called.contains m = true) :
    callProp B bm st m args = CallRes.err st (WErr.dupMethod m) := by
  unfold callProp
  rw [getTrap_fn_dup hm hmem hone hc]

theorem getTrap_obj_fresh {σ : Type} {B : BuilderClass σ} {bm : String}
    {called : List String} {g : String}
    {entries : List (String × ObjEntry σ)}
    (hg : g ≠ bm) (hmem : B.members g = MemberVal.obj entries)
    (hc : called.contains g = false) :
    getTrap B bm called (PropKey.str g)
      = Except.ok (GetRes.groupProxy g entries) := by
  simp [getTrap, hg, hmem, hc]
  simpa using hc

theorem getTrap_obj_dup {σ : Type} {B : BuilderClass σ} {bm : String}
    {called : List String} {g : String}
    {entries : List (String × ObjEntry σ)}
    (hg : g ≠ bm) (hmem : B.members g = MemberVal.obj entries)
    (hc : called.contains g = true) :
    getTrap B bm called (PropKey.str g) = Except.error (WErr.dupGroup g) := by
  simp [getTrap, hg, hmem, hc]
  simpa using hc

theorem callGroupProp_fresh {σ : Type} {B : BuilderClass σ} {bm : String}
    {st : ChainState σ} {g : String}
    {entries : List (String × ObjEntry σ)} (key : String) (args : List JsVal)
    (hg : g ≠ bm) (hmem : B.members g = MemberVal.obj entries)
    (hc : st.called.contains g = false) :
    callGroupProp B bm st g key args = invokeGroupKey st g entries key args := by
  unfold callGroupProp
  rw [getTrap_obj_fresh hg hmem hc]

theorem callGroupProp_dup {σ : Type} {B : BuilderClass σ} {bm : String}
    {st : ChainState σ} {g : String}
    {entries : List (String × ObjEntry σ)} (key : String) (args : List JsVal)
    (hg : g ≠ bm) (hmem : B.members g = MemberVal.obj entries)
    (hc : st.called.contains g = true) :
    callGroupProp B bm st g key args = CallRes.err st (WErr.dupGroup g) := by
  unfold callGroupProp
  rw [getTrap_obj_dup hg hmem hc]

theorem invokeClosure_ok {σ : Type} {st : ChainState σ}
    {impl : σ → List JsVal → MRes σ} {args : List JsVal} {s : σ} {r : JsVal}
    (prop : String) (isOneTime : Bool) (h : impl st.inner args = MRes.ok s r) :
    invokeClosure st impl prop isOneTime args
      = CallRes.view ⟨s, if isOneTime then setAdd prop st.called else st.called⟩ := by
  simp [invokeClosure, h]

theorem invokeClosure_thrown {σ : Type} {st : ChainState σ}
    {impl : σ → List JsVal → MRes σ} {args : List JsVal} {s : σ} {e : JsErr}
    (prop : String) (isOneTime : Bool)
    (h : impl st.inner args = MRes.thrown s e) :
    invokeClosure st impl prop isOneTime args
      = CallRes.err ⟨s, st.called⟩ (WErr.inner e) := by
  simp [invokeClosure, h]

theorem invokeFinalize_ok {σ : Type} {B : BuilderClass σ} {bm : String}
    {st : ChainState σ} {fimpl : σ → List JsVal → MRes σ} {s : σ} {v : JsVal}
    (hbm : B.members bm = MemberVal.fn fimpl)
    (hrun : fimpl st.inner [] = MRes.ok s v) :
    invokeFinalize B bm st = CallRes.value ⟨s, st.called⟩ v := by
  simp [invokeFinalize, hbm, hrun]

/-- C1.  For every one-time method `m` (name starting with `with`,
distinct from the finalize name) whose name is not yet consumed:
calling `m` with some arguments executes the underlying implementation
against the live inner instance (the resulting shared state carries
exactly the implementation's output state) and returns a fresh chain
view; following up with the finalize method returns the inner
builder's result over that mutated state, so the first call's side
effect is observable in the finalize result.  In particular, for the
test builder with one-time `withValue(v)` and finalize `build()`
returning `Hello, <v>!`, calling `withValue("World")` and then
`build()` yields `Hello, World!`. -/
theorem oneTime_once_then_finalize {σ : Type} (B : BuilderClass σ)
    (bm m : String) (st : ChainState σ)
    (impl fimpl : σ → List JsVal → MRes σ) (args : List JsVal)
    (s s2 : σ) (r v : JsVal) :
    (isOneTimeName m = true → m ≠ bm → B.members m = MemberVal.fn impl →
      st.called.contains m = false → impl st.inner args = MRes.ok s r →
      callProp B bm st m args = CallRes.view ⟨s, setAdd m st.called⟩)
    ∧ (isOneTimeName m = true → m ≠ bm → B.members m = MemberVal.fn impl →
      st.called.contains m = false → impl st.inner args = MRes.ok s r →
      B.members bm = MemberVal.fn fimpl → fimpl s [] = MRes.ok s2 v →
      runChain B bm st [(m, args), (bm, [])]
        = CallRes.value ⟨s2, setAdd m st.called⟩ v)
    ∧ runChain testBuilder "build" ⟨"", []⟩
        [("withValue", [JsVal.str "World"]), ("build", [])]
        = CallRes.value ⟨"World", ["withValue"]⟩ (JsVal.str "Hello, World!") := by
  have key : isOneTimeName m = true → m ≠ bm →
      B.members m = MemberVal.fn impl → st.called.contains m = false →
      impl st.inner args = MRes.ok s r →
      callProp B bm st m args = CallRes.view ⟨s, setAdd m st.called⟩ := by
    intro hone hm hmem hfresh hrun
    rw [callProp_fn_fresh args hm hmem (by rw [hone, hfresh]; rfl),
      invokeClosure_ok m (isOneTimeName m) hrun, hone]
    simp
  refine ⟨key, ?_, by decide⟩
  intro hone hm hmem hfresh hrun hbm hfin
  show (match callProp B bm st m args with
    | CallRes.view st' => runChain B bm st' [(bm, [])]
    | r => r) = CallRes.value ⟨s2, setAdd m st.called⟩ v
  rw [key hone hm hmem hfresh hrun]
  show (match callProp B bm ⟨s, setAdd m st.called⟩ bm [] with
    | CallRes.view st' => runChain B bm st' []
    | r => r) = CallRes.value ⟨s2, setAdd m st.called⟩ v
  rw [callProp_bm, invokeFinalize_ok hbm hfin]

/-- Witness for C1: the first test of the repository evaluated
concretely through the theorem. -/
theorem oneTime_once_then_finalize_witness :
    callProp testBuilder "build" ⟨"", []⟩ "withValue" [JsVal.str "World"]
      = CallRes.view ⟨"World", setAdd "withValue" []⟩
    ∧ runChain testBuilder "build" ⟨"", []⟩
        [("withValue", [JsVal.str "World"]), ("build", [])]
        = CallRes.value ⟨"World", setAdd "withValue" []⟩
          (JsVal.str "Hello, World!") := by
  have h := oneTime_once_then_finalize testBuilder "build" "withValue"
    ⟨"", []⟩ withValueImpl helloBuildImpl [JsVal.str "World"]
    "World" "World" JsVal.undefined (JsVal.str "Hello, World!")
  exact ⟨h.1 (by decide) (by decide) rfl rfl rfl,
    h.2.1 (by decide) (by decide) rfl rfl rfl rfl rfl⟩

/-- C2.  For every one-time method `m`: a successful first call records
`m` in the shared `called` set; once `m` is recorded, a second
invocation anywhere in the chain fails with the duplicate-method error
carrying `m` — already at property-access time, hence synchronously
before any argument can be evaluated — the shared state is returned
unchanged, and the conclusion holds for every possible underlying
implementation, so the method body is not executed a second time.  The
thrown message is `Method '<m>' already called`. -/
theorem oneTime_duplicate_rejected {σ : Type} (B : BuilderClass σ)
    (bm m : String) (st : ChainState σ)
    (impl : σ → List JsVal → MRes σ) (args args2 : List JsVal)
    (s : σ) (r : JsVal) :
    (isOneTimeName m = true → m ≠ bm → B.members m = MemberVal.fn impl →
      st.called.contains m = false → impl st.inner args = MRes.ok s r →
      callProp B bm st m args = CallRes.view ⟨s, setAdd m st.called⟩
        ∧ (setAdd m st.called).contains m = true)
    ∧ (isOneTimeName m = true → m ≠ bm → B.members m = MemberVal.fn impl →
      st.called.contains m = true →
      getTrap B bm st.called (PropKey.str m)
        = Except.error (WErr.dupMethod m))
    ∧ (isOneTimeName m = true → m ≠ bm → B.members m = MemberVal.fn impl →
      st.called.contains m = true →
      callProp B bm st m args2 = CallRes.err st (WErr.dupMethod m))
    ∧ errMessage (WErr.dupMethod m)
        = "Method " ++ quoteCh ++ m ++ quoteCh ++ " already called" := by
  refine ⟨?_, ?_, ?_, rfl⟩
  · intro hone hm hmem hfresh hrun
    refine ⟨?_, contains_setAdd_self m st.called⟩
    rw [callProp_fn_fresh args hm hmem (by rw [hone, hfresh]; rfl),
      invokeClosure_ok m (isOneTimeName m) hrun, hone]
    simp
  · intro hone hm hmem hc
    exact getTrap_fn_dup hm hmem hone hc
  · intro hone hm hmem hc
    exact callProp_fn_dup args2 hm hmem hone hc

/-- Witness for C2: the second test of the repository (`withName`
called twice) evaluated concretely through the theorem. -/
theorem oneTime_duplicate_rejected_witness :
    (callProp testBuilder "build" ⟨"", []⟩ "withValue" [JsVal.str "first"]
        = CallRes.view ⟨"first", setAdd "withValue" []⟩
      ∧ (setAdd "withValue" []).contains "withValue" = true)
    ∧ getTrap testBuilder "build" ["withValue"] (PropKey.str "withValue")
        = Except.error (WErr.dupMethod "withValue")
    ∧ callProp testBuilder "build" ⟨"first", ["withValue"]⟩ "withValue"
        [JsVal.str "second"]
        = CallRes.err ⟨"first", ["withValue"]⟩ (WErr.dupMethod "withValue") := by
  refine ⟨(oneTime_duplicate_rejected testBuilder "build" "withValue"
      ⟨"", []⟩ withValueImpl [JsVal.str "first"] [] "first"
      JsVal.undefined).1 (by decide) (by decide) rfl rfl rfl,
    (oneTime_duplicate_rejected testBuilder "build" "withValue"
      ⟨"", ["withValue"]⟩ withValueImpl [] [] "" JsVal.undefined).2.1
      (by decide) (by decide) rfl rfl,
    (oneTime_duplicate_rejected testBuilder "build" "withValue"
      ⟨"first", ["withValue"]⟩ withValueImpl [] [JsVal.str "second"] ""
      JsVal.undefined).2.2.1 (by decide) (by decide) rfl rfl⟩

theorem invokeGroupKey_ok {σ : Type} {st : ChainState σ}
    {entries : List (String × ObjEntry σ)} {key : String}
    {impl : σ → List JsVal → MRes σ} {args : List JsVal} {s : σ} {r : JsVal}
    (grp : String) (hkey : entries.lookup key = some (ObjEntry.fn impl))
    (hrun : impl st.inner args = MRes.ok s r) :
    invokeGroupKey st grp entries key args
      = CallRes.view ⟨s, setAdd grp st.called⟩ := by
  simp [invokeGroupKey, hkey, hrun]

theorem invokeGroupKey_thrown {σ : Type} {st : ChainState σ}
    {entries : List (String × ObjEntry σ)} {key : String}
    {impl : σ → List JsVal → MRes σ} {args : List JsVal} {s : σ} {e : JsErr}
    (grp : String) (hkey : entries.lookup key = some (ObjEntry.fn impl))
    (hrun : impl st.inner args = MRes.thrown s e) :
    invokeGroupKey st grp entries key args
      = CallRes.err ⟨s, st.called⟩ (WErr.inner e) := by
  simp [invokeGroupKey, hkey, hrun]

/-- C3.  For every group namespace `g`: a first call of any one method
`key` of `g` executes the underlying group method against the live
inner instance, records the group name `g` — not the method name — in
the shared `called` set and returns a fresh view, after which finalize
reflects the call's side effect; once `g` is recorded, merely accessing
`g` again raises the duplicate-group error carrying `g`, so invoking
any method of `g`, including a different one, fails with that error and
leaves the shared state unchanged.  The thrown message is
`Group '<g>' already used`. -/
theorem group_single_use {σ : Type} (B : BuilderClass σ)
    (bm g key key2 : String) (st : ChainState σ)
    (entries : List (String × ObjEntry σ))
    (impl fimpl : σ → List JsVal → MRes σ) (args args2 : List JsVal)
    (s s2 : σ) (r v : JsVal) :
    (g ≠ bm → B.members g = MemberVal.obj entries →
      st.called.contains g = false →
      entries.lookup key = some (ObjEntry.fn impl) →
      impl st.inner args = MRes.ok s r →
      callGroupProp B bm st g key args = CallRes.view ⟨s, setAdd g st.called⟩
        ∧ (setAdd g st.called).contains g = true
        ∧ (key ≠ g → (setAdd g st.called).contains key = st.called.contains key))
    ∧ (g ≠ bm → B.members g = MemberVal.obj entries →
      st.called.contains g = false →
      entries.lookup key = some (ObjEntry.fn impl) →
      impl st.inner args = MRes.ok s r →
      B.members bm = MemberVal.fn fimpl → fimpl s [] = MRes.ok s2 v →
      callProp B bm ⟨s, setAdd g st.called⟩ bm []
        = CallRes.value ⟨s2, setAdd g st.called⟩ v)
    ∧ (g ≠ bm → B.members g = MemberVal.obj entries →
      st.called.contains g = true →
      getTrap B bm st.called (PropKey.str g)
        = Except.error (WErr.dupGroup g)
        ∧ callGroupProp B bm st g key2 args2
          = CallRes.err st (WErr.dupGroup g))
    ∧ errMessage (WErr.dupGroup g)
        = "Group " ++ quoteCh ++ g ++ quoteCh ++ " already used" := by
  refine ⟨?_, ?_, ?_, rfl⟩
  · intro hg hmem hfresh hkey hrun
    exact ⟨by rw [callGroupProp_fresh key args hg hmem hfresh,
        invokeGroupKey_ok g hkey hrun],
      contains_setAdd_self g st.called,
      fun hne => contains_setAdd_of_ne st.called hne⟩
  · intro hg hmem hfresh hkey hrun hbm hfin
    rw [callProp_bm, invokeFinalize_ok hbm hfin]
  · intro hg hmem hused
    exact ⟨getTrap_obj_dup hg hmem hused,
      callGroupProp_dup key2 args2 hg hmem hused⟩

/-- Witness for C3: the grouped-methods test of the repository
(`options.enable()` succeeds and yields `["enabled"]` from `build()`;
`options.disable()` afterwards raises the duplicate-group error)
evaluated concretely through the theorem. -/
theorem group_single_use_witness :
    (callGroupProp optionsBuilder "build" ⟨[], []⟩ "options" "enable" []
        = CallRes.view ⟨["enabled"], setAdd "options" []⟩
      ∧ (setAdd "options" []).contains "options" = true
      ∧ ("enable" ≠ "options" →
          (setAdd "options" []).contains "enable" = List.contains [] "enable"))
    ∧ callProp optionsBuilder "build" ⟨["enabled"], setAdd "options" []⟩
        "build" []
        = CallRes.value ⟨["enabled"], setAdd "options" []⟩
          (JsVal.strList ["enabled"])
    ∧ (getTrap optionsBuilder "build" ["options"] (PropKey.str "options")
        = Except.error (WErr.dupGroup "options")
      ∧ callGroupProp optionsBuilder "build" ⟨["enabled"], ["options"]⟩
          "options" "disable" []
          = CallRes.err ⟨["enabled"], ["options"]⟩ (WErr.dupGroup "options")) := by
  refine ⟨(group_single_use optionsBuilder "build" "options" "enable" ""
      ⟨[], []⟩ optionsEntries enableImpl listBuildImpl [] [] ["enabled"] []
      JsVal.undefined JsVal.undefined).1 (by decide) rfl rfl rfl rfl,
    (group_single_use optionsBuilder "build" "options" "enable" ""
      ⟨[], []⟩ optionsEntries enableImpl listBuildImpl [] [] ["enabled"]
      ["enabled"] JsVal.undefined (JsVal.strList ["enabled"])).2.1
      (by decide) rfl rfl rfl rfl rfl rfl,
    (group_single_use optionsBuilder "build" "options" "enable" "disable"
      ⟨["enabled"], ["options"]⟩ optionsEntries enableImpl listBuildImpl [] []
      ["enabled"] [] JsVal.undefined JsVal.undefined).2.2.1
      (by decide) rfl rfl⟩

theorem runChain_append {σ : Type} (B : BuilderClass σ) (bm : String)
    (l1 l2 : List (String × List JsVal)) (st : ChainState σ) :
    runChain B bm st (l1 ++ l2)
      = match runChain B bm st l1 with
        | CallRes.view st' => runChain B bm st' l2
        | r => r := by
  induction l1 generalizing st with
  | nil => rfl
  | cons c l1 ih =>
    show (match callProp B bm st c.1 c.2 with
      | CallRes.view st' => runChain B bm st' (l1 ++ l2)
      | r => r) = _
    cases h : callProp B bm st c.1 c.2 <;> simp [runChain, h, ih]

theorem runChain_repeatable {σ : Type} {B : BuilderClass σ} {bm p : String}
    {impl : σ → List JsVal → MRes σ}
    (hmem : B.members p = MemberVal.fn impl) (hone : isOneTimeName p = false)
    (hp : p ≠ bm) (argss : List (List JsVal)) (st : ChainState σ) :
    runChain B bm st (argss.map fun a => (p, a))
      = match runInner impl st.inner argss with
        | Sum.inl s => CallRes.view ⟨s, st.called⟩
        | Sum.inr (s, e) => CallRes.err ⟨s, st.called⟩ (WErr.inner e) := by
  induction argss generalizing st with
  | nil => rfl
  | cons a rest ih =>
    have hstep := @callProp_fn_fresh σ B bm st p impl a hp hmem
      (by rw [hone]; rfl)
    rw [hone] at hstep
    show (match callProp B bm st p a with
      | CallRes.view st' => runChain B bm st' (rest.map fun a => (p, a))
      | r => r) = _
    rw [hstep]
    show (match invokeClosure st impl p false a with
      | CallRes.view st' => runChain B bm st' (rest.map fun a => (p, a))
      | r => r) = _
    cases h : impl st.inner a with
    | ok s r0 =>
      rw [invokeClosure_ok p false h]
      show runChain B bm ⟨s, st.called⟩ (rest.map fun a => (p, a))
        = match runInner impl st.inner (a :: rest) with
          | Sum.inl s => CallRes.view ⟨s, st.called⟩
          | Sum.inr (s, e) => CallRes.err ⟨s, st.called⟩ (WErr.inner e)
      rw [ih ⟨s, st.called⟩]
      show _ = (match runInner impl st.inner (a :: rest) with
        | Sum.inl s => CallRes.view ⟨s, st.called⟩
        | Sum.inr (s, e) => CallRes.err ⟨s, st.called⟩ (WErr.inner e))
      simp [runInner, h]
    | thrown s e =>
      rw [invokeClosure_thrown p false h]
      simp [runInner, h]

/-- C4.  For every repeatable method `p` (a callable whose name does
not start with `with` and is not the finalize name) and every list of
argument lists of any length N ≥ 0: running the chain of N calls of `p`
through the wrapper is exactly the direct sequential execution of the
underlying implementation against the inner instance, in call order,
with the shared `called` set untouched; and when all N invocations
return normally, finalizing afterwards returns the inner builder's
result over the accumulated state. -/
theorem repeatable_unbounded {σ : Type} (B : BuilderClass σ)
    (bm p : String) (st : ChainState σ)
    (impl fimpl : σ → List JsVal → MRes σ) (argss : List (List JsVal))
    (s s2 : σ) (v : JsVal) :
    (B.members p = MemberVal.fn impl → isOneTimeName p = false → p ≠ bm →
      runChain B bm st (argss.map fun a => (p, a))
        = match runInner impl st.inner argss with
          | Sum.inl s => CallRes.view ⟨s, st.called⟩
          | Sum.inr (s, e) => CallRes.err ⟨s, st.called⟩ (WErr.inner e))
    ∧ (B.members p = MemberVal.fn impl → isOneTimeName p = false → p ≠ bm →
      runInner impl st.inner argss = Sum.inl s →
      B.members bm = MemberVal.fn fimpl → fimpl s [] = MRes.ok s2 v →
      runChain B bm st ((argss.map fun a => (p, a)) ++ [(bm, [])])
        = CallRes.value ⟨s2, st.called⟩ v) := by
  constructor
  · intro hmem hone hp
    exact runChain_repeatable hmem hone hp argss st
  · intro hmem hone hp hall hbm hfin
    rw [runChain_append, runChain_repeatable hmem hone hp argss st, hall]
    show (match callProp B bm ⟨s, st.called⟩ bm [] with
      | CallRes.view st' => runChain B bm st' []
      | r => r) = _
    rw [callProp_bm, invokeFinalize_ok hbm hfin]

/-- Witness for C4: the `addTag` test of the repository
(`addTag("a").addTag("b").build()` yields `["a", "b"]`) evaluated
concretely through the theorem, here with N = 2. -/
theorem repeatable_unbounded_witness :
    runChain tagBuilder "build" ⟨[], []⟩
      [("addTag", [JsVal.str "a"]), ("addTag", [JsVal.str "b"])]
      = CallRes.view ⟨["a", "b"], []⟩
    ∧ runChain tagBuilder "build" ⟨[], []⟩
      [("addTag", [JsVal.str "a"]), ("addTag", [JsVal.str "b"]), ("build", [])]
      = CallRes.value ⟨["a", "b"], []⟩ (JsVal.strList ["a", "b"]) := by
  have h := repeatable_unbounded tagBuilder "build" "addTag" ⟨[], []⟩
    addTagImpl listBuildImpl [[JsVal.str "a"], [JsVal.str "b"]]
    ["a", "b"] ["a", "b"] (JsVal.strList ["a", "b"])
  exact ⟨h.1 rfl (by decide) (by decide),
    h.2 rfl (by decide) (by decide) rfl rfl rfl⟩

/-- C5.  The finalize member is dispatched without any consultation of
the `called` set: accessing it always yields the finalize thunk, even
when the finalize name itself or anything else is recorded as consumed;
invoking it (with any argument list — the thunk takes none) calls the
inner builder's finalize method with zero arguments and returns its
result as-is, leaving the `called` set untouched; and a second
finalization is not rejected by the wrapper — it again returns the
inner result, now over the state left by the first finalization.  With
zero prior calls the shared state is the constructor's output, so
finalize returns the inner builder's default-state result. -/
theorem finalize_no_state_check {σ : Type} (B : BuilderClass σ)
    (bm : String) (st : ChainState σ) (args : List JsVal)
    (fimpl : σ → List JsVal → MRes σ) (s s2 : σ) (v v2 : JsVal) :
    getTrap B bm st.called (PropKey.str bm) = Except.ok GetRes.finalizeThunk
    ∧ callProp B bm st bm args = invokeFinalize B bm st
    ∧ (B.members bm = MemberVal.fn fimpl → fimpl st.inner [] = MRes.ok s v →
      callProp B bm st bm args = CallRes.value ⟨s, st.called⟩ v)
    ∧ (B.members bm = MemberVal.fn fimpl → fimpl st.inner [] = MRes.ok s v →
      fimpl s [] = MRes.ok s2 v2 →
      callProp B bm ⟨s, st.called⟩ bm args
        = CallRes.value ⟨s2, st.called⟩ v2) := by
  refine ⟨getTrap_bm B bm st.called, callProp_bm B bm st args, ?_, ?_⟩
  · intro hbm hrun
    rw [callProp_bm, invokeFinalize_ok hbm hrun]
  · intro hbm hrun hrun2
    rw [callProp_bm, invokeFinalize_ok hbm hrun2]

/-- Witness for C5: finalizing the test builder with zero prior calls
returns the default-state result `Hello, !` twice in a row, and does so
even with names recorded in the `called` set. -/
theorem finalize_no_state_check_witness :
    getTrap testBuilder "build" ["withValue"] (PropKey.str "build")
      = Except.ok GetRes.finalizeThunk
    ∧ callProp testBuilder "build" ⟨"", []⟩ "build" []
      = CallRes.value ⟨"", []⟩ (JsVal.str "Hello, !")
    ∧ callProp testBuilder "build" ⟨"", []⟩ "build" []
      = CallRes.value ⟨"", []⟩ (JsVal.str "Hello, !") := by
  refine ⟨(finalize_no_state_check testBuilder "build" ⟨"", ["withValue"]⟩ []
      helloBuildImpl "" "" JsVal.undefined JsVal.undefined).1,
    (finalize_no_state_check testBuilder "build" ⟨"", []⟩ []
      helloBuildImpl "" "" (JsVal.str "Hello, !") JsVal.undefined).2.2.1
      rfl rfl,
    (finalize_no_state_check testBuilder "build" ⟨"", []⟩ []
      helloBuildImpl "" "" (JsVal.str "Hello, !")
      (JsVal.str "Hello, !")).2.2.2 rfl rfl rfl⟩

/-- Counterexample to C6 as stated.  The claim exempts only non-null
objects ALL of whose members are callables from passthrough, and
predicts that a non-null object with a non-callable member is returned
unmodified with no interception and no failure.  The code, however,
classifies EVERY non-null object as a group (line 46 tests only
`typeof value` and `value !== null`): for the concrete builder whose
member `config` is the object with the single non-callable member
`x = 42`, the access is intercepted into a transient group proxy — not
the passthrough result `GetRes.dataVal` — and invoking `config.x`
through the wrapper throws a `TypeError` instead of reading `42`. -/
theorem plain_object_intercepted_counterexample :
    getTrap dataBuilder "build" [] (PropKey.str "config")
      = Except.ok (GetRes.groupProxy "config" configEntries)
    ∧ callGroupProp dataBuilder "build" ⟨(), []⟩ "config" "x" []
      = CallRes.err ⟨(), []⟩ (WErr.inner (JsErr.typeError "not a function")) := by
  exact ⟨rfl, rfl⟩

/-- C6 (amended).  For every member of the inner builder that is
neither the finalize method, nor a callable, nor a non-null object —
that is, a primitive, `null` or `undefined` data property — accessing
that member on the wrapped builder returns the underlying value
unmodified, with no interception and no failure.  (A non-null object is
always treated as a group namespace, even when some of its members are
not callables.) -/
theorem plain_data_passthrough {σ : Type} (B : BuilderClass σ)
    (bm p : String) (called : List String) (v : PrimVal)
    (hp : p ≠ bm) (hmem : B.members p = MemberVal.data v) :
    getTrap B bm called (PropKey.str p) = Except.ok (GetRes.dataVal v) := by
  simp [getTrap, hp, hmem]

/-- Witness for C6 (amended): the data member `version = 1` of the
concrete builder passes through unmodified. -/
theorem plain_data_passthrough_witness :
    getTrap dataBuilder "build" [] (PropKey.str "version")
      = Except.ok (GetRes.dataVal (PrimVal.num 1)) := by
  exact plain_data_passthrough dataBuilder "build" "version" []
    (PrimVal.num 1) (by decide) rfl

theorem getTrap_data {σ : Type} {B : BuilderClass σ} {bm p : String}
    {called : List String} {v : PrimVal}
    (hp : p ≠ bm) (hmem : B.members p = MemberVal.data v) :
    getTrap B bm called (PropKey.str p) = Except.ok (GetRes.dataVal v) := by
  simp [getTrap, hp, hmem]

theorem getTrap_closure_name {σ : Type} {B : BuilderClass σ}
    {bm : String} {called : List String} {p q : String}
    {impl : σ → List JsVal → MRes σ} {one : Bool}
    (h : getTrap B bm called (PropKey.str p)
      = Except.ok (GetRes.methodClosure impl q one)) :
    q = p := by
  simp only [getTrap] at h
  split at h
  · simp at h
  · split at h
    · split at h
      · simp at h
      · simp at h
        exact h.2.1.symm
    · split at h <;> simp at h
    · simp at h

theorem invokeFinalize_not_view {σ : Type} (B : BuilderClass σ)
    (bm : String) (st st' : ChainState σ) :
    invokeFinalize B bm st ≠ CallRes.view st' := by
  unfold invokeFinalize
  split
  · split <;> simp
  · simp

theorem callProp_obj {σ : Type} {B : BuilderClass σ} {bm : String}
    {st : ChainState σ} {p : String} {entries : List (String × ObjEntry σ)}
    (args : List JsVal) (hp : p ≠ bm) (hmem : B.members p = MemberVal.obj entries) :
    callProp B bm st p args
      = CallRes.err st (if st.called.contains p then WErr.dupGroup p
          else WErr.inner (JsErr.typeError "not a function")) := by
  by_cases hc : st.called.contains p = true
  · unfold callProp
    rw [getTrap_obj_dup hp hmem hc, hc]
    rfl
  · have hc' : st.called.contains p = false := by
      revert hc
      cases st.called.contains p <;> simp
    unfold callProp
    rw [getTrap_obj_fresh hp hmem hc', hc']
    rfl

theorem callProp_view_called {σ : Type} {B : BuilderClass σ} {bm : String}
    {st : ChainState σ} {p : String} {args : List JsVal} {st' : ChainState σ}
    (h : callProp B bm st p args = CallRes.view st') :
    st'.called = st.called ∨ st'.called = setAdd p st.called := by
  by_cases hbm : p = bm
  · subst hbm
    rw [callProp_bm] at h
    exact absurd h (invokeFinalize_not_view B p st st')
  · cases hmem : B.members p with
    | fn impl =>
      by_cases hdup : (isOneTimeName p && st.called.contains p) = true
      · obtain ⟨hone, hc⟩ := Bool.and_eq_true_iff.mp hdup
        rw [callProp_fn_dup args hbm hmem hone hc] at h
        simp at h
      · have hdup' : (isOneTimeName p && st.called.contains p) = false := by
          revert hdup
          cases isOneTimeName p && st.called.contains p <;> simp
        rw [callProp_fn_fresh args hbm hmem hdup'] at h
        cases hrun : impl st.inner args with
        | ok s r =>
          rw [invokeClosure_ok p (isOneTimeName p) hrun] at h
          simp at h
          rw [← h]
          cases isOneTimeName p with
          | false => exact Or.inl rfl
          | true => exact Or.inr rfl
        | thrown s e =>
          rw [invokeClosure_thrown p (isOneTimeName p) hrun] at h
          simp at h
    | obj entries =>
      rw [callProp_obj args hbm hmem] at h
      simp at h
    | data v =>
      unfold callProp at h
      rw [getTrap_data hbm hmem] at h
      simp at h

theorem getTrap_group_name {σ : Type} {B : BuilderClass σ}
    {bm : String} {called : List String} {p q : String}
    {entries : List (String × ObjEntry σ)}
    (h : getTrap B bm called (PropKey.str p)
      = Except.ok (GetRes.groupProxy q entries)) :
    q = p := by
  simp only [getTrap] at h
  split at h
  · simp at h
  · split at h
    · split at h <;> simp at h
    · split at h
      · simp at h
      · simp at h
        exact h.1.symm
    · simp at h

theorem callGroupProp_view_called {σ : Type} {B : BuilderClass σ}
    {bm : String} {st : ChainState σ} {g key : String} {args : List JsVal}
    {st' : ChainState σ}
    (h : callGroupProp B bm st g key args = CallRes.view st') :
    st'.called = setAdd g st.called := by
  unfold callGroupProp at h
  cases hgt : getTrap B bm st.called (PropKey.str g) with
  | error e =>
    rw [hgt] at h
    simp at h
  | ok r =>
    rw [hgt] at h
    cases r with
    | groupProxy q entries =>
      have hq : q = g := getTrap_group_name hgt
      subst hq
      have h2 : invokeGroupKey st q entries key args = CallRes.view st' := h
      unfold invokeGroupKey at h2
      split at h2
      · split at h2
        · simp at h2
          rw [← h2]
        · simp at h2
      · simp at h2
      · simp at h2
    | undef => simp at h
    | finalizeThunk => simp at h
    | methodClosure impl q one => simp at h
    | dataVal v => simp at h

/-- C7.  All proxy views of one lineage share the same single inner
instance and the same single `called` set: `createBuilder` creates the
`called` set empty at wrap time (and exactly one initial view, the view
`0`); the dispatch of a call is identical through every view, so a
one-time method or a group consumed through one view is rejected with
the corresponding duplicate error when attempted through any other view
of the same chain; every succeeding mutating call — a one-time or
repeatable method call (`viewCall`) as well as a group method call
(`viewGroupCall`) — returns a view whose identity is fresh, distinct
from every previously existing view and in particular from the
receiver, over the same lineage; and a step never resets or replaces
the `called` set: a method call leaves it unchanged or inserts exactly
the one method name just consumed, a group call inserts exactly the
group name just consumed. -/
theorem views_share_state_and_are_fresh {σ : Type} (c : BuilderClass σ)
    (w w' : Wrapped σ) (bm m g p key : String)
    (ctorArgs args : List JsVal) (impl : σ → List JsVal → MRes σ)
    (entries : List (String × ObjEntry σ)) (v1 v2 j nid : Nat) :
    ((createBuilder c bm ctorArgs).st.called = []
      ∧ (createBuilder c bm ctorArgs).nextId = 1)
    ∧ viewCall w v1 p args = viewCall w v2 p args
    ∧ viewGroupCall w v1 g key args = viewGroupCall w v2 g key args
    ∧ (viewCall w v1 p args = ViewRes.view w' nid →
        nid = w.nextId ∧ w'.nextId = w.nextId + 1 ∧ (j < w.nextId → nid ≠ j)
        ∧ (w'.st.called = w.st.called ∨ w'.st.called = setAdd p w.st.called))
    ∧ (viewGroupCall w v1 g key args = ViewRes.view w' nid →
        nid = w.nextId ∧ w'.nextId = w.nextId + 1 ∧ (j < w.nextId → nid ≠ j)
        ∧ w'.st.called = setAdd g w.st.called)
    ∧ (isOneTimeName m = true → m ≠ w.bm → w.cls.members m = MemberVal.fn impl →
        w.st.called.contains m = true →
        viewCall w v2 m args = ViewRes.err w (WErr.dupMethod m))
    ∧ (g ≠ w.bm → w.cls.members g = MemberVal.obj entries →
        w.st.called.contains g = true →
        viewGroupCall w v2 g key args = ViewRes.err w (WErr.dupGroup g)) := by
  refine ⟨⟨rfl, rfl⟩, rfl, rfl, ?_, ?_, ?_, ?_⟩
  · intro h
    unfold viewCall at h
    cases hc : callProp w.cls w.bm w.st p args with
    | view st2 =>
      rw [hc] at h
      simp at h
      obtain ⟨hw, hnid⟩ := h
      refine ⟨hnid.symm, ?_, ?_, ?_⟩
      · rw [← hw]
      · intro hj
        omega
      · rw [← hw]
        exact callProp_view_called hc
    | value st2 v0 =>
      rw [hc] at h
      simp at h
    | err st2 e =>
      rw [hc] at h
      simp at h
  · intro h
    unfold viewGroupCall at h
    cases hc : callGroupProp w.cls w.bm w.st g key args with
    | view st2 =>
      rw [hc] at h
      simp at h
      obtain ⟨hw, hnid⟩ := h
      refine ⟨hnid.symm, ?_, ?_, ?_⟩
      · rw [← hw]
      · intro hj
        omega
      · rw [← hw]
        exact callGroupProp_view_called hc
    | value st2 v0 =>
      rw [hc] at h
      simp at h
    | err st2 e =>
      rw [hc] at h
      simp at h
  · intro hone hm hmem hcon
    unfold viewCall
    rw [callProp_fn_dup args hm hmem hone hcon]
  · intro hg hmem hcon
    unfold viewGroupCall
    rw [callGroupProp_dup key args hg hmem hcon]

/-- Witness for C7: wrap time yields an empty `called` set; the
dispatch of `withValue` is identical through view `0` and view `5`; the
view returned by the first successful one-time call is the fresh
identity `1` (distinct from the receiver `0`) and the step extended the
`called` set by exactly the consumed method name; the view returned by
a successful group call (`options.enable()` on the grouped-methods test
builder) is likewise the fresh identity `1` and the step inserted
exactly the group name; and the consumed one-time method is rejected
when attempted through another view. -/
theorem views_share_state_and_are_fresh_witness :
    (createBuilder testBuilder "build" []).st.called = []
    ∧ viewCall ⟨testBuilder, "build", ⟨"", []⟩, 1⟩ 0 "withValue"
        [JsVal.str "World"]
      = viewCall ⟨testBuilder, "build", ⟨"", []⟩, 1⟩ 5 "withValue"
        [JsVal.str "World"]
    ∧ ((1 : Nat) = 1 ∧ (2 : Nat) = 1 + 1 ∧ ((0 : Nat) < 1 → (1 : Nat) ≠ 0)
      ∧ (["withValue"] = ([] : List String)
        ∨ ["withValue"] = setAdd "withValue" []))
    ∧ ((1 : Nat) = 1 ∧ (2 : Nat) = 1 + 1 ∧ ((0 : Nat) < 1 → (1 : Nat) ≠ 0)
      ∧ ["options"] = setAdd "options" [])
    ∧ viewCall ⟨testBuilder, "build", ⟨"World", ["withValue"]⟩, 2⟩ 1
        "withValue" [JsVal.str "again"]
      = ViewRes.err ⟨testBuilder, "build", ⟨"World", ["withValue"]⟩, 2⟩
        (WErr.dupMethod "withValue") := by
  have h1 := views_share_state_and_are_fresh testBuilder
    ⟨testBuilder, "build", ⟨"", []⟩, 1⟩
    ⟨testBuilder, "build", ⟨"World", ["withValue"]⟩, 2⟩
    "build" "withValue" "g" "withValue" "k" [] [JsVal.str "World"]
    withValueImpl [] 0 5 0 1
  have h2 := views_share_state_and_are_fresh testBuilder
    ⟨testBuilder, "build", ⟨"World", ["withValue"]⟩, 2⟩
    ⟨testBuilder, "build", ⟨"World", ["withValue"]⟩, 2⟩
    "build" "withValue" "g" "withValue" "k" [] [JsVal.str "again"]
    withValueImpl [] 0 1 0 1
  have h3 := views_share_state_and_are_fresh optionsBuilder
    ⟨optionsBuilder, "build", ⟨[], []⟩, 1⟩
    ⟨optionsBuilder, "build", ⟨["enabled"], ["options"]⟩, 2⟩
    "build" "m" "options" "p" "enable" [] [] enableImpl optionsEntries
    0 1 0 1
  exact ⟨h1.1.1, h1.2.1, h1.2.2.2.1 rfl, h3.2.2.2.2.1 rfl,
    h2.2.2.2.2.2.1 (by decide) (by decide) rfl rfl⟩

/-- C8.  The factory entry points all delegate to the one construction
contract: `createBuilderFactory` applied to a leading class argument
produces a factory whose wrapper uses the default finalize name
`build` (whatever occupies the second argument slot), applied to a
leading name argument with a class second it uses the supplied name,
and `createBuilderFactoryFor` likewise delegates with its given name;
for the test builder whose only member is the non-default finalize
method `run()`, wrapping it and calling `run()` directly returns the
inner builder's result `done` unchanged, the lineage left intact. -/
theorem factories_delegate {σ : Type} (c : BuilderClass σ)
    (second : Option (BuilderClass σ)) (ctorArgs : List JsVal) (m : String) :
    createBuilderFactory (FactoryHead.classArg c) second ctorArgs
      = some (createBuilder c "build" ctorArgs)
    ∧ createBuilderFactory (FactoryHead.nameArg m) (some c) ctorArgs
      = some (createBuilder c m ctorArgs)
    ∧ createBuilderFactoryFor c m ctorArgs = createBuilder c m ctorArgs
    ∧ viewCall (createBuilder runBuilder "run" []) 0 "run" []
      = ViewRes.value (createBuilder runBuilder "run" []) (JsVal.str "done") := by
  exact ⟨rfl, rfl, rfl, rfl⟩

/-- C9.  A name is recorded in the `called` set only after the
underlying body returns normally.  When the body of a one-time method
throws, the error propagates, the thrown-upon instance state is kept,
but the method name is not recorded — so the shared state still admits
a later retry of the same method, which then succeeds and records the
name; the same holds for a group method and its group name. -/
theorem throwing_body_records_nothing {σ : Type} (B : BuilderClass σ)
    (bm m g key : String) (st : ChainState σ)
    (impl gimpl : σ → List JsVal → MRes σ)
    (entries : List (String × ObjEntry σ)) (args args2 : List JsVal)
    (s s2 : σ) (e : JsErr) (r : JsVal) :
    (m ≠ bm → B.members m = MemberVal.fn impl →
      st.called.contains m = false → impl st.inner args = MRes.thrown s e →
      callProp B bm st m args = CallRes.err ⟨s, st.called⟩ (WErr.inner e))
    ∧ (isOneTimeName m = true → m ≠ bm → B.members m = MemberVal.fn impl →
      st.called.contains m = false → impl st.inner args = MRes.thrown s e →
      impl s args2 = MRes.ok s2 r →
      callProp B bm ⟨s, st.called⟩ m args2
        = CallRes.view ⟨s2, setAdd m st.called⟩)
    ∧ (g ≠ bm → B.members g = MemberVal.obj entries →
      st.called.contains g = false →
      entries.lookup key = some (ObjEntry.fn gimpl) →
      gimpl st.inner args = MRes.thrown s e →
      callGroupProp B bm st g key args
        = CallRes.err ⟨s, st.called⟩ (WErr.inner e))
    ∧ (g ≠ bm → B.members g = MemberVal.obj entries →
      st.called.contains g = false →
      entries.lookup key = some (ObjEntry.fn gimpl) →
      gimpl st.inner args = MRes.thrown s e → gimpl s args2 = MRes.ok s2 r →
      callGroupProp B bm ⟨s, st.called⟩ g key args2
        = CallRes.view ⟨s2, setAdd g st.called⟩) := by
  refine ⟨?_, ?_, ?_, ?_⟩
  · intro hm hmem hfresh hthrow
    have hdup : (isOneTimeName m && st.called.contains m) = false := by
      rw [hfresh]
      cases isOneTimeName m <;> rfl
    rw [callProp_fn_fresh args hm hmem hdup,
      invokeClosure_thrown m (isOneTimeName m) hthrow]
  · intro hone hm hmem hfresh hthrow hretry
    rw [callProp_fn_fresh args2 hm hmem (by rw [hone, hfresh]; rfl)]
    have hstep := @invokeClosure_ok σ ⟨s, st.called⟩ impl args2 s2 r m
      (isOneTimeName m) hretry
    rw [hstep, hone]
    simp
  · intro hg hmem hfresh hkey hthrow
    rw [callGroupProp_fresh key args hg hmem hfresh,
      invokeGroupKey_thrown g hkey hthrow]
  · intro hg hmem hfresh hkey hthrow hretry
    rw [@callGroupProp_fresh σ B bm ⟨s, st.called⟩ g entries key args2
      hg hmem hfresh]
    exact @invokeGroupKey_ok σ ⟨s, st.called⟩ entries key gimpl args2 s2 r
      g hkey hretry

/-- Witness for C9: the builder whose `withBad` body mutates the
counter and throws on empty arguments.  The throwing call propagates
the error with the mutated instance but an unchanged empty `called`
set; retrying with an argument succeeds and only then records the
name; likewise for the group method `g.bad`. -/
theorem throwing_body_records_nothing_witness :
    callProp throwBuilder "build" ⟨0, []⟩ "withBad" []
      = CallRes.err ⟨1, []⟩ (WErr.inner (JsErr.userThrown (JsVal.str "boom")))
    ∧ callProp throwBuilder "build" ⟨1, []⟩ "withBad" [JsVal.num 7]
      = CallRes.view ⟨2, setAdd "withBad" []⟩
    ∧ callGroupProp throwBuilder "build" ⟨0, []⟩ "g" "bad" []
      = CallRes.err ⟨1, []⟩ (WErr.inner (JsErr.userThrown (JsVal.str "boom")))
    ∧ callGroupProp throwBuilder "build" ⟨1, []⟩ "g" "bad" [JsVal.num 7]
      = CallRes.view ⟨2, setAdd "g" []⟩ := by
  have h := throwing_body_records_nothing throwBuilder "build" "withBad" "g"
    "bad" ⟨0, []⟩ withBadImpl withBadImpl gBadEntries [] [JsVal.num 7]
    1 2 (JsErr.userThrown (JsVal.str "boom")) JsVal.undefined
  exact ⟨h.1 (by decide) rfl rfl rfl,
    h.2.1 (by decide) (by decide) rfl rfl rfl rfl,
    h.2.2.1 (by decide) rfl rfl rfl rfl,
    h.2.2.2 (by decide) rfl rfl rfl rfl rfl⟩

/-- C10.  Accessing any non-string property key (a symbol) on the
wrapped builder returns `undefined` without delegating to the inner
builder: the result is the same for every builder class, in particular
whatever value the class holds in its symbol-keyed member table, and no
error is possible. -/
theorem symbol_access_undefined {σ : Type} (B : BuilderClass σ)
    (bm : String) (called : List String) (k : Nat) :
    getTrap B bm called (PropKey.sym k) = Except.ok GetRes.undef := by
  rfl

end FluentBuilder
